import Mathlib

/-!
Verification of the git-dit issue tracker core against its source.

The definitions below are a shallow embedding of the Rust sources of
git-dit (`src/main.rs`, `src/filters.rs`, `src/error.rs`,
`lib/src/message/accumulation.rs`).  Parts of the library crate that are
not present in the source tree (the trailer model, the reference
classifier, graph walks, remote priorization) are modelled from the
specification; each such definition carries a doc comment starting with
`Modelled from the spec:`.

Machine integers are modelled as `Nat`/`Int`; commit object ids are
modelled as natural numbers ordered by creation time (a commit's parents
were created before it), issue-id strings as `String`.
-/

/-- Modelled from the spec: `TrailerValue` is a tagged variant `String(s)`
or `Int(i64)` (the trailer module of the library crate is not in the
source tree).  The `i64` range restriction is immaterial to the claims
and is not modelled. -/
inductive TrailerValue where
  | string (s : String)
  | int (n : Int)
deriving DecidableEq, Repr

/-- Modelled from the spec: a trailer is a `(key, value)` pair. -/
structure Trailer where
  key : String
  value : TrailerValue
deriving DecidableEq, Repr

/-- Accumulation policy for trailers (`AccumulationPolicy` in
`accumulation.rs`): `latest` models `Latest`, `list` models `List`. -/
inductive AccumulationPolicy where
  | latest
  | list
deriving DecidableEq, Repr

/-- `ValueAccumulator` from `accumulation.rs`: either an optional single
value (`Latest`) or a list of values (`List`). -/
inductive ValueAccumulator where
  | latest (v : Option TrailerValue)
  | list (vs : List TrailerValue)
deriving DecidableEq, Repr

/-- `ValueAccumulator::process` from `accumulation.rs`: in the `Latest`
state a value is stored only if none is stored yet; in the `List` state
every value is appended. -/
def ValueAccumulator.process : ValueAccumulator → TrailerValue → ValueAccumulator
  | .latest none, v => .latest (some v)
  | .latest (some w), _ => .latest (some w)
  | .list vs, v => .list (vs ++ [v])

/-- `From<AccumulationPolicy> for ValueAccumulator` from
`accumulation.rs`. -/
def ValueAccumulator.ofPolicy : AccumulationPolicy → ValueAccumulator
  | .latest => .latest none
  | .list => .list []

/-- `IntoIterator for ValueAccumulator` from `accumulation.rs`: iterating
a `Latest` accumulator yields the stored value (if any), iterating a
`List` accumulator yields all stored values in order. -/
def ValueAccumulator.toList : ValueAccumulator → List TrailerValue
  | .latest none => []
  | .latest (some v) => [v]
  | .list vs => vs

/-- Repeated application of `ValueAccumulator::process` to a sequence of
values, in sequence order. -/
def ValueAccumulator.processSeq (a : ValueAccumulator) (vs : List TrailerValue) :
    ValueAccumulator :=
  vs.foldl ValueAccumulator.process a

/-- Keyed accumulator state: the `HashMap<String, ValueAccumulator>` /
`BTreeMap<String, ValueAccumulator>` of `accumulation.rs`, modelled as an
association list (first binding of a key is the map entry). -/
def AccMap := List (String × ValueAccumulator)

instance : DecidableEq AccMap := by
  unfold AccMap
  infer_instance

/-- `Accumulator::process` for map types from `accumulation.rs`: look up
the trailer's key; if present, process the value into the stored
accumulator; a trailer whose key is absent is dropped. -/
def AccMap.process : AccMap → Trailer → AccMap
  | [], _ => []
  | (k, a) :: rest, t =>
      if k = t.key then (k, a.process t.value) :: rest
      else (k, a) :: AccMap.process rest t

/-- `Accumulator::process_all` from `accumulation.rs`: process every
trailer provided by an iterator, in order. -/
def AccMap.processAll (m : AccMap) (ts : List Trailer) : AccMap :=
  ts.foldl AccMap.process m

/-- Map lookup on the association-list model. -/
def AccMap.lookup : AccMap → String → Option ValueAccumulator
  | [], _ => none
  | (k, a) :: rest, key => if k = key then some a else AccMap.lookup rest key

lemma ValueAccumulator.processSeq_latest_some (v : TrailerValue)
    (vs : List TrailerValue) :
    ValueAccumulator.processSeq (.latest (some v)) vs = .latest (some v) := by
  induction vs with
  | nil => rfl
  | cons w ws ih => simpa [ValueAccumulator.processSeq, ValueAccumulator.process] using ih

lemma ValueAccumulator.processSeq_list (acc vs : List TrailerValue) :
    ValueAccumulator.processSeq (.list acc) vs = .list (acc ++ vs) := by
  induction vs generalizing acc with
  | nil => simp [ValueAccumulator.processSeq]
  | cons w ws ih =>
      simp [ValueAccumulator.processSeq, ValueAccumulator.process] at ih ⊢
      simpa using ih (acc ++ [w])

/-- C3: processing a sequence of trailer values with a fresh `Latest`
accumulator retains exactly the first value of the sequence (at most one
value is yielded on iteration), and a fresh `List` accumulator retains
every value in iteration order. -/
theorem c3_value_accumulator_policies (vs : List TrailerValue) :
    (ValueAccumulator.processSeq (ValueAccumulator.ofPolicy .latest) vs).toList
        = vs.take 1
    ∧ (ValueAccumulator.processSeq (ValueAccumulator.ofPolicy .list) vs).toList
        = vs := by
  constructor
  · cases vs with
    | nil => rfl
    | cons v ws =>
        simp [ValueAccumulator.ofPolicy, ValueAccumulator.processSeq,
          ValueAccumulator.process]
        simpa [ValueAccumulator.processSeq] using
          congrArg ValueAccumulator.toList
            (ValueAccumulator.processSeq_latest_some v ws)
  · simpa [ValueAccumulator.ofPolicy, ValueAccumulator.toList] using
      congrArg ValueAccumulator.toList (ValueAccumulator.processSeq_list [] vs)

lemma AccMap.process_keys (m : AccMap) (t : Trailer) :
    (AccMap.process m t).map Prod.fst = m.map Prod.fst := by
  induction m with
  | nil => rfl
  | cons kv rest ih =>
      obtain ⟨k, a⟩ := kv
      by_cases h : k = t.key <;> simp [AccMap.process, h, ih]

lemma AccMap.processAll_keys (m : AccMap) (ts : List Trailer) :
    (AccMap.processAll m ts).map Prod.fst = m.map Prod.fst := by
  induction ts generalizing m with
  | nil => rfl
  | cons t ts ih =>
      simpa [AccMap.processAll, AccMap.process_keys] using
        (ih (AccMap.process m t)).trans (AccMap.process_keys m t)

/-- C4: a trailer whose key is not bound in the keyed accumulator leaves
the map completely unchanged, and no `process` or `process_all` call ever
alters the set of keys of the map. -/
theorem c4_keyed_accumulator_unknown_keys (m : AccMap) (t : Trailer)
    (h : t.key ∉ m.map Prod.fst) :
    AccMap.process m t = m
    ∧ (∀ (m' : AccMap) (t' : Trailer),
        (AccMap.process m' t').map Prod.fst = m'.map Prod.fst)
    ∧ (∀ (m' : AccMap) (ts : List Trailer),
        (AccMap.processAll m' ts).map Prod.fst = m'.map Prod.fst) := by
  refine ⟨?_, fun m' t' => AccMap.process_keys m' t',
    fun m' ts => AccMap.processAll_keys m' ts⟩
  induction m with
  | nil => rfl
  | cons kv rest ih =>
      obtain ⟨k, a⟩ := kv
      simp only [List.map_cons, List.mem_cons] at h
      push_neg at h
      have hk : ¬ k = t.key := fun hk => h.1 hk.symm
      simp [AccMap.process, hk, ih h.2]

/-- C4 witness: processing the trailer `X-Unknown: v` against a map that
binds only `Issue-status` leaves the map unchanged and preserves keys. -/
theorem c4_keyed_accumulator_unknown_keys_witness :
    AccMap.process [("Issue-status", ValueAccumulator.latest none)]
        ⟨"X-Unknown", TrailerValue.string "v"⟩
      = [("Issue-status", ValueAccumulator.latest none)]
    ∧ (∀ (m' : AccMap) (t' : Trailer),
        (AccMap.process m' t').map Prod.fst = m'.map Prod.fst)
    ∧ (∀ (m' : AccMap) (ts : List Trailer),
        (AccMap.processAll m' ts).map Prod.fst = m'.map Prod.fst) :=
  c4_keyed_accumulator_unknown_keys
    [("Issue-status", ValueAccumulator.latest none)]
    ⟨"X-Unknown", TrailerValue.string "v"⟩ (by decide)

/-- Structural character scan: split a character list at the first
occurrence of `sep`, returning the parts before and after it, or `none`
when `sep` does not occur.  This models Rust's `str::splitn(2, sep)`
behaviour at the character level. -/
def breakAt (sep : Char) : List Char → Option (List Char × List Char)
  | [] => none
  | c :: cs =>
      if c = sep then some ([], cs)
      else (breakAt sep cs).map (fun p => (c :: p.1, p.2))

lemma breakAt_eq_none (sep : Char) (l : List Char) :
    breakAt sep l = none ↔ sep ∉ l := by
  induction l with
  | nil => simp [breakAt]
  | cons c cs ih =>
      by_cases h : c = sep
      · simp [breakAt, h]
      · have h' : ¬ sep = c := fun hs => h hs.symm
        simp [breakAt, h, ih]
        intro _
        exact h'

lemma breakAt_append (sep : Char) (pre post : List Char) (h : sep ∉ pre) :
    breakAt sep (pre ++ sep :: post) = some (pre, post) := by
  induction pre with
  | nil => simp [breakAt]
  | cons c cs ih =>
      simp only [List.mem_cons] at h
      push_neg at h
      have hc : ¬ c = sep := fun hc => h.1 hc.symm
      simp [breakAt, hc, ih h.2]

/-- Error kind for the command-line crate (`error.rs` of the binary crate
together with the `MalformedFilterSpec` kind used by `filters.rs`); the
error carries the offending input. -/
inductive CliError where
  | malformedFilterSpec (input : String)
deriving DecidableEq, Repr

/-- Structural decimal-digit parse of a character list (empty list fails). -/
def parseDigits : List Char → Option Nat
  | [] => none
  | [c] => if c.isDigit then some (c.toNat - '0'.toNat) else none
  | c :: cs =>
      if c.isDigit then
        (parseDigits cs).map (fun n => (c.toNat - '0'.toNat) * 10 ^ cs.length + n)
      else none

/-- Modelled from the spec: integer detection for trailer values — the
value parses as a signed decimal with no leading or trailing whitespace
(`TrailerValue::from_slice`: try integer, else string). -/
def parseSignedDecimal (l : List Char) : Option Int :=
  match l with
  | '-' :: rest => (parseDigits rest).map (fun n => -(n : Int))
  | '+' :: rest => (parseDigits rest).map (fun n => (n : Int))
  | _ => (parseDigits l).map (fun n => (n : Int))

/-- Modelled from the spec: `TrailerValue::from_slice(s)` — try integer,
else string. -/
def TrailerValue.from_slice (s : String) : TrailerValue :=
  match parseSignedDecimal s.toList with
  | some n => .int n
  | none => .string s

/-- Modelled from the spec: a `TrailerSpec` declares an expected
trailer's key (the value-shape component is immaterial to the claims, and
the two well-known specs are both string-shaped). -/
structure TrailerSpec where
  key : String
deriving DecidableEq, Repr

/-- Modelled from the spec: the well-known `Issue-status` trailer spec. -/
def ISSUE_STATUS_SPEC : TrailerSpec := ⟨"Issue-status"⟩

/-- Modelled from the spec: the well-known `Issue-type` trailer spec. -/
def ISSUE_TYPE_SPEC : TrailerSpec := ⟨"Issue-type"⟩

/-- `ValueMatcher` from the library's trailer filter module, modelled
from the spec: variants `Equals(v)`, extensible (only `Equals` exists in
the source). -/
inductive ValueMatcher where
  | equals (v : TrailerValue)
deriving DecidableEq, Repr

/-- Matcher acceptance: `Equals(v)` accepts exactly the value `v`. -/
def ValueMatcher.accepts : ValueMatcher → TrailerValue → Bool
  | .equals v, w => v = w

/-- `FilterSpec` from `filters.rs`: a metadata spec together with a
matcher for the value. -/
structure FilterSpec where
  metadata : TrailerSpec
  matcher : ValueMatcher
deriving DecidableEq, Repr

/-- `FilterSpec::from_str` from `filters.rs`: split the input at the
first `:`; the part before it must name a known metadata ("status" or
"type"), the part after it is parsed into a trailer value and wrapped in
an `Equals` matcher; otherwise the parse fails with a
`MalformedFilterSpec` error carrying the whole input. -/
def FilterSpec.from_str (s : String) : Except CliError FilterSpec :=
  match breakAt ':' s.toList with
  | none =>
      -- without a `:` the whole input is the key and the value part is
      -- missing, so the parse fails whether or not the key is recognized
      .error (.malformedFilterSpec s)
  | some (pre, post) =>
      let key := String.mk pre
      if key = "status" then
        .ok ⟨ISSUE_STATUS_SPEC, .equals (TrailerValue.from_slice (String.mk post))⟩
      else if key = "type" then
        .ok ⟨ISSUE_TYPE_SPEC, .equals (TrailerValue.from_slice (String.mk post))⟩
      else .error (.malformedFilterSpec s)

/-- C8: parsing a filter specification fails with a `MalformedFilterSpec`
error carrying the offending input exactly when the input has no
`:`-separated value part or the key before the first `:` is not a
recognized metadata name ("status" or "type"); otherwise it succeeds with
an `Equals` matcher on the value parsed from the text after the first
`:`. -/
theorem c8_filter_spec_parse (s : String) :
    ((':' ∉ s.toList) →
        FilterSpec.from_str s = .error (.malformedFilterSpec s))
    ∧ (∀ pre post : String,
        s.toList = pre.toList ++ ':' :: post.toList → ':' ∉ pre.toList →
        FilterSpec.from_str s =
          if pre = "status" then
            .ok ⟨ISSUE_STATUS_SPEC, .equals (TrailerValue.from_slice post)⟩
          else if pre = "type" then
            .ok ⟨ISSUE_TYPE_SPEC, .equals (TrailerValue.from_slice post)⟩
          else .error (.malformedFilterSpec s)) := by
  constructor
  · intro h
    have hb : breakAt ':' s.data = none := (breakAt_eq_none ':' s.data).mpr h
    simp [FilterSpec.from_str, hb]
  · intro pre post hsplit hpre
    have hmk : ∀ u : String, String.mk u.data = u := fun u => rfl
    have hb : breakAt ':' s.data = some (pre.data, post.data) := by
      have hd : s.data = pre.data ++ ':' :: post.data := hsplit
      rw [hd]
      exact breakAt_append ':' pre.data post.data hpre
    by_cases h1 : pre = "status"
    · simp [FilterSpec.from_str, hb, hmk, h1]
    · by_cases h2 : pre = "type"
      · simp [FilterSpec.from_str, hb, hmk, h1, h2]
      · simp [FilterSpec.from_str, hb, hmk, h1, h2]

/-- C8 witness: `"status:open"` parses into an `Equals` matcher on the
string value `open`, and `"status"` (no value part) is rejected with the
offending input. -/
theorem c8_filter_spec_parse_witness :
    FilterSpec.from_str "status:open"
        = .ok ⟨ISSUE_STATUS_SPEC, .equals (TrailerValue.from_slice "open")⟩
    ∧ FilterSpec.from_str "status"
        = .error (.malformedFilterSpec "status") := by
  constructor
  · have h := (c8_filter_spec_parse "status:open").2 "status" "open"
      (by decide) (by decide)
    simpa using h
  · exact (c8_filter_spec_parse "status").1 (by decide)

/-- Reference kind of a dit reference (`IssueRefType` in the library's
issue module, listed in the spec as `{ Head, Leaf, Any, Unknown }`). -/
inductive IssueRefType where
  | Head
  | Leaf
  | Any
  | Unknown
deriving DecidableEq, Repr

/-- Character test for a lowercase hexadecimal digit. -/
def isHexLower (c : Char) : Bool :=
  c.isDigit || ('a' ≤ c && c ≤ 'f')

/-- Structural conjunction of a character predicate over a list. -/
def allChars (p : Char → Bool) : List Char → Bool
  | [] => true
  | c :: cs => p c && allChars p cs

/-- Test for a 40-digit lowercase hexadecimal object-id segment. -/
def isHex40 (s : String) : Bool :=
  s.data.length = 40 && allChars isHexLower s.data

/-- Structural split of a character list at every occurrence of `sep`
(the list of segments; an empty input yields one empty segment). -/
def splitSegs (sep : Char) : List Char → List (List Char)
  | [] => [[]]
  | c :: cs =>
      match splitSegs sep cs with
      | [] => [[]]
      | seg :: segs =>
          if c = sep then [] :: seg :: segs else (c :: seg) :: segs

/-- Modelled from the spec: the reference classifier `of_ref` (issue
module of the library crate, absent from the source tree).  The grammar,
matched against the full reference name:
`refs/dit/<hex40>/head` is a local head, `refs/dit/<hex40>/leaves/<hex40>`
a local leaf, `refs/remotes/<remote>/dit/<hex40>/head` a remote head,
`refs/remotes/<remote>/dit/<hex40>/leaves/...` a remote leaf; anything
else is not a dit reference.  The issue id is returned as its hex
string. -/
def IssueRefType.of_ref (name : String) : Option (String × IssueRefType) :=
  match (splitSegs '/' name.data).map String.mk with
  | ["refs", "dit", id, "head"] =>
      if isHex40 id then some (id, .Head) else none
  | ["refs", "dit", id, "leaves", leaf] =>
      if isHex40 id && isHex40 leaf then some (id, .Leaf) else none
  | ["refs", "remotes", _remote, "dit", id, "head"] =>
      if isHex40 id then some (id, .Head) else none
  | "refs" :: "remotes" :: _remote :: "dit" :: id :: "leaves" :: rest =>
      if isHex40 id && !rest.isEmpty then some (id, .Leaf) else none
  | _ => none

/-- Rendering of a reference kind by `check_refname` in `main.rs`:
`"head"` for `Head`, `"leaf"` for `Leaf`, `"unknown"` for anything
else. -/
def refTypeName : IssueRefType → String
  | .Head => "head"
  | .Leaf => "leaf"
  | _ => "unknown"

/-- `check_refname` from `main.rs`, as a function from the reference name
and the two flags (`issue-id`, `reftype`) to the process exit code and
the lines printed: a name classified by `of_ref` succeeds (exit 0) and
prints the issue id and/or the reference kind as requested by the flags;
an unclassified name exits with code 1. -/
def check_refname (refname : String) (showId showType : Bool) :
    Nat × List String :=
  match IssueRefType.of_ref refname with
  | some (id, reftype) =>
      (0, (if showId then [id] else [])
          ++ (if showType then [refTypeName reftype] else []))
  | none => (1, [])

/-- C6: for every reference name, if `of_ref` classifies it then
`check_refname` succeeds (exit code 0) and prints, when the corresponding
flags are set, the issue id and the reference kind ("head" for `Head`,
"leaf" for `Leaf`, "unknown" otherwise); if `of_ref` yields no
classification, it exits with code 1 and prints nothing. -/
theorem c6_check_refname (refname : String) (showId showType : Bool) :
    (∀ id reftype, IssueRefType.of_ref refname = some (id, reftype) →
        check_refname refname showId showType =
          (0, (if showId then [id] else [])
              ++ (if showType then [refTypeName reftype] else [])))
    ∧ (IssueRefType.of_ref refname = none →
        check_refname refname showId showType = (1, [])) := by
  constructor
  · intro id reftype h
    simp [check_refname, h]
  · intro h
    simp [check_refname, h]

/-- C6 witness: a well-formed local head reference name is classified and
answered with exit code 0, the issue id and the kind "head"; a
non-dit name exits with code 1. -/
theorem c6_check_refname_witness :
    IssueRefType.of_ref
        "refs/dit/aaaaaaaaaaaaaaaaaaaaaaaaaaaaaaaaaaaaaaaa/head"
      = some ("aaaaaaaaaaaaaaaaaaaaaaaaaaaaaaaaaaaaaaaa", .Head)
    ∧ check_refname "refs/dit/aaaaaaaaaaaaaaaaaaaaaaaaaaaaaaaaaaaaaaaa/head"
        true true
      = (0, ["aaaaaaaaaaaaaaaaaaaaaaaaaaaaaaaaaaaaaaaa", "head"])
    ∧ IssueRefType.of_ref "refs/heads/master" = none
    ∧ check_refname "refs/heads/master" true true = (1, []) := by
  refine ⟨by decide, ?_, by decide, ?_⟩
  · exact (c6_check_refname
      "refs/dit/aaaaaaaaaaaaaaaaaaaaaaaaaaaaaaaaaaaaaaaa/head" true true).1
      "aaaaaaaaaaaaaaaaaaaaaaaaaaaaaaaaaaaaaaaa" .Head (by decide)
  · exact (c6_check_refname "refs/heads/master" true true).2 (by decide)

/-- Character test for a trailer key character (`[A-Za-z0-9-]`). -/
def isKeyChar (c : Char) : Bool :=
  c.isAlphanum || c == '-'

/-- Scan of the remainder of a trailer-shaped line after its first key
character: further key characters followed by `: ` and arbitrary text. -/
def trailerTail : List Char → Bool
  | ':' :: ' ' :: _ => true
  | c :: rest => isKeyChar c && trailerTail rest
  | [] => false

/-- Modelled from the spec: a line is trailer-shaped if it matches
`^[A-Za-z0-9-]+: .*` (message text model of the library crate, absent
from the source tree). -/
def isTrailerLine (l : String) : Bool :=
  match l.data with
  | [] => false
  | c :: rest => isKeyChar c && trailerTail rest

/-- Modelled from the spec: `check_format(lines)` fails unless (a) the
first line is non-empty, (b) the second line, if present, is empty, and
(c) the trailer block, if present, is preceded by a blank line (the
trailer block is the last contiguous run of trailer-shaped lines at the
end of the message; a block covering the whole message is preceded by the
start).  `check_message_format` lives in the library's message module,
absent from the source tree. -/
def check_format (lines : List String) : Bool :=
  match lines with
  | [] => false
  | l0 :: rest =>
      let block := (lines.reverse.takeWhile isTrailerLine).length
      (l0 ≠ "")
      && (match rest with
          | [] => true
          | l1 :: _ => l1 = "")
      && (block = 0 || block = lines.length
          || lines.getD (lines.length - block - 1) "" = "")

/-- `check_message` from `main.rs`, as a function of the input lines: the
leading run of empty lines is skipped (`skip_while(|l| l.is_empty())`)
and the message format check is applied to the remainder.  The
`stripped()` adapter comes from the binary's system module, absent from
the source tree, and the spec describes no transformation for it, so it
is modelled as the identity on the lines. -/
def check_message (input : List String) : Bool :=
  check_format (input.dropWhile (fun l => l == ""))

/-- C10: `check_message` discards all leading empty lines before checking
the message format, so an input made of any number of empty lines
followed by a well-formatted message is accepted. -/
theorem c10_check_message_skips_leading_empties (empties msg : List String)
    (hempty : ∀ l ∈ empties, l = "") (hok : check_format msg = true) :
    check_message (empties ++ msg) = true := by
  induction empties with
  | nil =>
      cases msg with
      | nil => exact absurd hok (by simp [check_format])
      | cons l0 rest =>
          have h0 : l0 ≠ "" := by
            intro h
            rw [check_format.eq_def] at hok
            simp [h] at hok
          have h0' : (l0 == "") = false := by
            simpa using h0
          simpa [check_message, List.dropWhile, h0'] using hok
  | cons e es ih =>
      have he : e = "" := hempty e (by simp)
      have hes : ∀ l ∈ es, l = "" := fun l hl => hempty l (by simp [hl])
      simpa [check_message, List.dropWhile, he] using ih hes

/-- C10 witness: two leading empty lines before a well-formatted message
are accepted by `check_message`. -/
theorem c10_check_message_skips_leading_empties_witness :
    check_format ["Fix bug", "", "Body line", "", "Signed-off-by: A <a@x>"]
        = true
    ∧ check_message
        (["", ""] ++ ["Fix bug", "", "Body line", "", "Signed-off-by: A <a@x>"])
        = true := by
  refine ⟨by decide, ?_⟩
  exact c10_check_message_skips_leading_empties ["", ""]
    ["Fix bug", "", "Body line", "", "Signed-off-by: A <a@x>"]
    (by decide) (by decide)

/-- Exit status of a spawned child process: either terminated with an
exit code or killed without one (e.g. by a signal), mirroring what
`std::process::ExitStatus` exposes through `success()` and `code()`. -/
inductive ChildStatus where
  | exited (code : Int)
  | signaled
deriving DecidableEq, Repr

/-- `ExitStatus::success()`: termination with exit code zero. -/
def ChildStatus.success : ChildStatus → Bool
  | .exited c => c == 0
  | .signaled => false

/-- `ExitStatus::code()`: the exit code, absent when the child was killed
without one. -/
def ChildStatus.exitCode : ChildStatus → Option Int
  | .exited c => some c
  | .signaled => none

/-- Command line spawned for a subcommand: program name and arguments. -/
structure SpawnedCommand where
  program : String
  args : List String
deriving DecidableEq, Repr

/-- `handle_unknown_subcommand` from `main.rs`, invocation part: the
program invoked for an unknown subcommand `name` is `git-dit-<name>`,
with the remaining arguments passed through. -/
def unknown_subcommand_invocation (name : String) (args : List String) :
    SpawnedCommand :=
  ⟨"git-dit-" ++ name, args⟩

/-- `handle_unknown_subcommand` from `main.rs`, exit part: when the child
terminates unsuccessfully the program exits with the child's exit code,
falling back to 1 when there is none; on success the handler returns and
the process ends with code 0. -/
def handle_unknown_subcommand_exit (st : ChildStatus) : Int :=
  if st.success then 0 else st.exitCode.getD 1

/-- C7: an unknown subcommand `name` is dispatched to an executable named
`git-dit-<name>` with the remaining arguments, and the program's exit
code is 0 when the child succeeds, the child's exit code when it fails
with one, and 1 when the child terminated without an exit code. -/
theorem c7_unknown_subcommand_dispatch (name : String) (args : List String)
    (st : ChildStatus) :
    (unknown_subcommand_invocation name args).program = "git-dit-" ++ name
    ∧ (unknown_subcommand_invocation name args).args = args
    ∧ handle_unknown_subcommand_exit st =
        (match st with
         | .exited c => if c = 0 then 0 else c
         | .signaled => 1) := by
  refine ⟨rfl, rfl, ?_⟩
  cases st with
  | exited c =>
      by_cases h : c = 0 <;>
        simp [handle_unknown_subcommand_exit, ChildStatus.success,
          ChildStatus.exitCode, h]
  | signaled => rfl

/-- Commit graph of the object database: each commit (a natural number)
has an ordered list of parents, and every parent was created before its
child (parents are strictly smaller).  The first parent is the
distinguished "reply-to" parent. -/
structure CommitGraph where
  parents : Nat → List Nat
  wf : ∀ c, ∀ p ∈ parents c, p < c

/-- Fuel-bounded ancestry test: `reachesFuel g f c t` holds when `t` is
reachable from `c` by following parent edges, exploring at most `f`
levels. -/
def reachesFuel (g : CommitGraph) : Nat → Nat → Nat → Bool
  | 0, _, _ => false
  | fuel + 1, c, t => (c == t) || (g.parents c).any (fun p => reachesFuel g fuel p t)

/-- Ancestry in the commit graph: `t` is `c` or an ancestor of `c`.  The
fuel `c + 1` always suffices because parents are strictly smaller. -/
def reaches (g : CommitGraph) (c t : Nat) : Bool :=
  reachesFuel g (c + 1) c t

lemma reachesFuel_mono (g : CommitGraph) :
    ∀ (f f' c t : Nat), f ≤ f' → reachesFuel g f c t = true →
      reachesFuel g f' c t = true := by
  intro f
  induction f with
  | zero => intro f' c t _ h; simp [reachesFuel] at h
  | succ f ih =>
      intro f' c t hle h
      obtain ⟨f'', rfl⟩ : ∃ k, f' = k + 1 := ⟨f' - 1, by omega⟩
      rw [reachesFuel] at h ⊢
      rcases Bool.or_eq_true_iff.mp h with heq | hany
      · exact Bool.or_eq_true_iff.mpr (Or.inl heq)
      · refine Bool.or_eq_true_iff.mpr (Or.inr ?_)
        rcases List.any_eq_true.mp hany with ⟨p, hp, hr⟩
        exact List.any_eq_true.mpr ⟨p, hp, ih f'' p t (by omega) hr⟩

lemma reachesFuel_to_reaches (g : CommitGraph) :
    ∀ (f c t : Nat), c < f → reachesFuel g f c t = true → reaches g c t = true := by
  intro f
  induction f with
  | zero => intro c t h; omega
  | succ f ih =>
      intro c t hcf h
      rw [reachesFuel] at h
      rcases Bool.or_eq_true_iff.mp h with heq | hany
      · rw [reaches, reachesFuel]
        exact Bool.or_eq_true_iff.mpr (Or.inl heq)
      · rcases List.any_eq_true.mp hany with ⟨p, hp, hr⟩
        have hpc : p < c := g.wf c p hp
        have hrp : reaches g p t = true := ih p t (by omega) hr
        rw [reaches, reachesFuel]
        refine Bool.or_eq_true_iff.mpr (Or.inr (List.any_eq_true.mpr ⟨p, hp, ?_⟩))
        exact reachesFuel_mono g (p + 1) c p t (by omega) hrp

lemma reaches_iff (g : CommitGraph) (c t : Nat) :
    reaches g c t = true ↔ c = t ∨ ∃ p ∈ g.parents c, reaches g p t = true := by
  constructor
  · intro h
    rw [reaches, reachesFuel] at h
    rcases Bool.or_eq_true_iff.mp h with heq | hany
    · exact Or.inl (by simpa using heq)
    · rcases List.any_eq_true.mp hany with ⟨p, hp, hr⟩
      have hpc : p < c := g.wf c p hp
      exact Or.inr ⟨p, hp, reachesFuel_to_reaches g c p t hpc hr⟩
  · intro h
    rw [reaches, reachesFuel]
    rcases h with rfl | ⟨p, hp, hr⟩
    · simp
    · refine Bool.or_eq_true_iff.mpr (Or.inr (List.any_eq_true.mpr ⟨p, hp, ?_⟩))
      have hpc : p < c := g.wf c p hp
      exact reachesFuel_mono g (p + 1) c p t (by omega) hr

lemma reaches_self (g : CommitGraph) (c : Nat) : reaches g c c = true :=
  (reaches_iff g c c).mpr (Or.inl rfl)

/-- Fuel-bounded first-parent walk (`fuel` bounds the number of steps). -/
def firstParentFuel (g : CommitGraph) (issueId : Nat) : Nat → Nat → List Nat
  | 0, _ => []
  | fuel + 1, c =>
      if c = issueId then [c]
      else
        match g.parents c with
        | [] => [c]
        | p :: _ => c :: firstParentFuel g issueId fuel p

/-- Modelled from the spec: `messages_from(oid)` — the first-parent walk
from `oid` stopping at the issue id, inclusive (issue entity of the
library crate, absent from the source tree).  The fuel `oid + 1` always
suffices because parents are strictly smaller. -/
def messagesFrom (g : CommitGraph) (issueId oid : Nat) : List Nat :=
  firstParentFuel g issueId (oid + 1) oid

/-- Reference handle: name, originating remote (none for a local ref) and
the commit the reference peels to. -/
structure RefM where
  name : String
  remote : Option String
  target : Nat
deriving DecidableEq, Repr

/-- Locality rank used by reference selection: local references win over
remote ones outright. -/
def refLocality (r : RefM) : Nat :=
  match r.remote with
  | none => 0
  | some _ => 1

/-- Priority index of a reference's remote: position in the priorization
list, with remotes absent from the list sorting after every listed
remote (a local reference gets rank 0, which is never compared against a
remote's rank because locality is compared first). -/
def remoteIdx (prios : List String) (r : RefM) : Nat :=
  match r.remote with
  | none => 0
  | some n => prios.indexOf n

/-- Strict ordering on references induced by a remote priorization:
lexicographic on (locality, remote priority index, reference name). -/
def refKeyLt (prios : List String) (x y : RefM) : Bool :=
  decide (refLocality x < refLocality y)
  || (decide (refLocality x = refLocality y)
      && (decide (remoteIdx prios x < remoteIdx prios y)
          || (decide (remoteIdx prios x = remoteIdx prios y)
              && decide (x.name < y.name))))

/-- Modelled from the spec: `select_ref(candidates)` of the remote
priorization extension (`gitext.rs`, absent from the source tree) — pick
the minimum candidate under (locality, priority index, name); `none`
only for an empty candidate list. -/
def select_ref (prios : List String) (refs : List RefM) : Option RefM :=
  match refs with
  | [] => none
  | r :: rest =>
      some (rest.foldl (fun best x => if refKeyLt prios x best then x else best) r)

/-- Issue entity as consumed by the filter: the commit graph, the issue
id (root commit), the head references visible for the issue, and the
trailers carried by each message's text. -/
structure IssueM where
  graph : CommitGraph
  id : Nat
  heads : List RefM
  trailersOf : Nat → List Trailer

/-- `TrailerFilter` of the library's trailer filter module, modelled from
the spec: a trailer spec paired with a value matcher. -/
structure TrailerFilter where
  spec : TrailerSpec
  matcher : ValueMatcher
deriving DecidableEq, Repr

/-- Accumulated value of a key in an accumulator map: the single value
the stored accumulator yields on iteration, if it yields exactly one. -/
def accValue (m : AccMap) (k : String) : Option TrailerValue :=
  match AccMap.lookup m k with
  | some a =>
      match a.toList with
      | [v] => some v
      | _ => none
  | none => none

/-- Modelled from the spec: `TrailerFilter::matches` — the filter's spec
key must be present in the accumulated view with a value accepted by the
matcher. -/
def TrailerFilter.matches (f : TrailerFilter) (m : AccMap) : Bool :=
  match accValue m f.spec.key with
  | some v => f.matcher.accepts v
  | none => false

/-- Modelled from the spec: the keyed accumulator initialised by
`accumulate_trailers` for a collection of specs — one `Latest`
accumulator per spec key (the accumulated-latest view). -/
def initAcc (keys : List String) : AccMap :=
  keys.map (fun k => (k, ValueAccumulator.latest none))

/-- `MetadataFilter` from `filters.rs`: a remote priorization and the
trailer filters built from the filter specs. -/
structure MetadataFilter where
  prios : List String
  trailers : List TrailerFilter

/-- `MetadataFilter::empty` from `filters.rs`: a filter with no trailer
filters; it filters out no issue. -/
def MetadataFilter.empty (prios : List String) : MetadataFilter :=
  ⟨prios, []⟩

/-- Accumulated-latest trailer view built by `MetadataFilter::filter` in
`filters.rs`: select the head by remote priorization, walk the
first-parent chain of messages from it (`messages_from`), and accumulate
the trailers of those messages into the per-spec-key view; with no
selectable head there are no messages. -/
def MetadataFilter.filterAcc (mf : MetadataFilter) (issue : IssueM) : AccMap :=
  let head := (select_ref mf.prios issue.heads).map (fun r => r.target)
  let msgs : List Nat :=
    match head with
    | none => []
    | some h => messagesFrom issue.graph issue.id h
  AccMap.processAll (initAcc (mf.trailers.map (fun t => t.spec.key)))
    (msgs.flatMap issue.trailersOf)

/-- `MetadataFilter::filter` from `filters.rs`: an empty filter accepts
immediately; otherwise the issue is accepted iff every trailer filter
matches the accumulated view. -/
def MetadataFilter.filter (mf : MetadataFilter) (issue : IssueM) : Bool :=
  if mf.trailers.isEmpty then true
  else mf.trailers.all (fun t => t.matches (mf.filterAcc issue))

lemma TrailerFilter.matches_iff (f : TrailerFilter) (m : AccMap) :
    f.matches m = true ↔
      ∃ v, accValue m f.spec.key = some v ∧ f.matcher.accepts v = true := by
  rw [TrailerFilter.matches]
  cases h : accValue m f.spec.key <;> simp [h]

lemma AccMap.lookup_initAcc (keys : List String) (k : String) (h : k ∈ keys) :
    AccMap.lookup (initAcc keys) k = some (.latest none) := by
  induction keys with
  | nil => simp at h
  | cons k' ks ih =>
      rcases List.mem_cons.mp h with rfl | hk
      · simp [initAcc, AccMap.lookup]
      · by_cases he : k' = k
        · simp [initAcc, AccMap.lookup, he]
        · simpa [initAcc, AccMap.lookup, he] using ih hk

/-- C5: a metadata filter constructed from an empty set of filter specs
accepts every issue; the result is `true` uniformly in the issue, which
is the observable content of the short-circuit (no reference or message
of the issue influences the outcome). -/
theorem c5_empty_filter_accepts_all (prios : List String) (issue : IssueM) :
    (MetadataFilter.empty prios).filter issue = true := by
  simp [MetadataFilter.empty, MetadataFilter.filter]

/-- C2: for a non-empty filter set, the metadata filter accepts an issue
iff every trailer filter finds its spec key present in the
accumulated-latest trailer view of the issue with a value its matcher
accepts. -/
theorem c2_metadata_filter_semantics (mf : MetadataFilter) (issue : IssueM)
    (hne : mf.trailers ≠ []) :
    mf.filter issue = true ↔
      ∀ t ∈ mf.trailers, ∃ v,
        accValue (mf.filterAcc issue) t.spec.key = some v
        ∧ t.matcher.accepts v = true := by
  have hE : mf.trailers.isEmpty = false := by
    cases h : mf.trailers with
    | nil => exact absurd h hne
    | cons a l => simp [h]
  rw [MetadataFilter.filter, hE]
  simp only [Bool.false_eq_true, if_false, List.all_eq_true]
  constructor
  · intro h t ht
    exact (TrailerFilter.matches_iff t (mf.filterAcc issue)).mp (h t ht)
  · intro h t ht
    exact (TrailerFilter.matches_iff t (mf.filterAcc issue)).mpr (h t ht)

/-- C9: with a non-empty filter set, the accumulated view used by the
metadata filter is built only from the first-parent chain of messages
starting at the head selected by remote priorization; when no head can be
selected the view holds no values and the issue is rejected. -/
theorem c9_filter_view_from_selected_head (mf : MetadataFilter) (issue : IssueM)
    (hne : mf.trailers ≠ []) :
    (select_ref mf.prios issue.heads = none → mf.filter issue = false)
    ∧ (∀ r, select_ref mf.prios issue.heads = some r →
        mf.filter issue =
          mf.trailers.all (fun t => t.matches
            (AccMap.processAll (initAcc (mf.trailers.map (fun u => u.spec.key)))
              ((messagesFrom issue.graph issue.id r.target).flatMap
                issue.trailersOf)))) := by
  have hE : mf.trailers.isEmpty = false := by
    cases h : mf.trailers with
    | nil => exact absurd h hne
    | cons a l => simp [h]
  constructor
  · intro hsel
    obtain ⟨t0, ht0⟩ : ∃ t0, t0 ∈ mf.trailers := by
      cases h : mf.trailers with
      | nil => exact absurd h hne
      | cons a l => exact ⟨a, by simp [h]⟩
    have hacc : mf.filterAcc issue
        = initAcc (mf.trailers.map (fun t => t.spec.key)) := by
      rw [MetadataFilter.filterAcc, hsel]
      rfl
    have hkey : t0.spec.key ∈ mf.trailers.map (fun t => t.spec.key) :=
      List.mem_map.mpr ⟨t0, ht0, rfl⟩
    have hmatch : t0.matches (mf.filterAcc issue) = false := by
      rw [hacc, TrailerFilter.matches, accValue,
        AccMap.lookup_initAcc _ _ hkey]
      rfl
    rw [MetadataFilter.filter, hE]
    simp only [Bool.false_eq_true, if_false]
    rcases h : mf.trailers.all (fun t => t.matches (mf.filterAcc issue)) with _ | _
    · rfl
    · exact absurd ((List.all_eq_true.mp h) t0 ht0) (by simp [hmatch])
  · intro r hsel
    rw [MetadataFilter.filter, hE]
    simp only [Bool.false_eq_true, if_false]
    have hacc : mf.filterAcc issue
        = AccMap.processAll (initAcc (mf.trailers.map (fun u => u.spec.key)))
            ((messagesFrom issue.graph issue.id r.target).flatMap
              issue.trailersOf) := by
      rw [MetadataFilter.filterAcc, hsel]
      rfl
    rw [hacc]

/-- Three-commit chain used by concrete witnesses: commit 0 is the issue
root, commit 1 replies to 0, commit 2 replies to 1. -/
def chainGraph : CommitGraph where
  parents := fun n => if n = 0 then [] else if n ≤ 2 then [n - 1] else []
  wf := by
    intro c p hp
    by_cases h0 : c = 0
    · simp [h0] at hp
    · by_cases h2 : c ≤ 2
      · simp [h0, h2] at hp
        omega
      · simp [h0, h2] at hp

/-- Sample issue for witnesses: rooted at commit 0, one local head at
commit 1, whose message carries the trailer `Issue-status: open`. -/
def sampleIssue : IssueM where
  graph := chainGraph
  id := 0
  heads := [⟨"refs/dit/a/head", none, 1⟩]
  trailersOf := fun n =>
    if n = 1 then [⟨"Issue-status", TrailerValue.string "open"⟩] else []

/-- Sample issue with no visible head reference. -/
def headlessIssue : IssueM where
  graph := chainGraph
  id := 0
  heads := []
  trailersOf := fun _ => []

/-- Sample one-element filter set: `Issue-status` equals `open`. -/
def sampleFilter : MetadataFilter where
  prios := []
  trailers := [⟨ISSUE_STATUS_SPEC, .equals (TrailerValue.string "open")⟩]

/-- C2 witness: the sample filter applied to the sample issue realises
the equivalence at a concrete input. -/
theorem c2_metadata_filter_semantics_witness :
    sampleFilter.filter sampleIssue = true ↔
      ∀ t ∈ sampleFilter.trailers, ∃ v,
        accValue (sampleFilter.filterAcc sampleIssue) t.spec.key = some v
        ∧ t.matcher.accepts v = true :=
  c2_metadata_filter_semantics sampleFilter sampleIssue (by decide)

/-- C9 witness: the sample filter on the headless sample issue realises
both conjuncts at a concrete input. -/
theorem c9_filter_view_from_selected_head_witness :
    (select_ref sampleFilter.prios headlessIssue.heads = none →
        sampleFilter.filter headlessIssue = false)
    ∧ (∀ r, select_ref sampleFilter.prios headlessIssue.heads = some r →
        sampleFilter.filter headlessIssue =
          sampleFilter.trailers.all (fun t => t.matches
            (AccMap.processAll
              (initAcc (sampleFilter.trailers.map (fun u => u.spec.key)))
              ((messagesFrom headlessIssue.graph headlessIssue.id
                r.target).flatMap headlessIssue.trailersOf)))) :=
  c9_filter_view_from_selected_head sampleFilter headlessIssue (by decide)

/-- Candidate set of the mirror planner from `mirror_impl` in `main.rs`:
the commits pointed to by the issue's remote leaf references, restricted
to the named remote when one is given (a reference whose remote cannot be
determined is dropped in that case). -/
def mirrorCandidates (remoteArg : Option String) (rrefs : List RefM) :
    List Nat :=
  (rrefs.filter (fun r =>
    match remoteArg with
    | some n => r.remote == some n
    | none => true)).map (fun r => r.target)

/-- Seeds pushed into the revwalk by `mirror_impl` in `main.rs`: all
currently visible local references of the issue plus the parents of every
candidate leaf. -/
def mirrorSeeds (g : CommitGraph) (lrefs cands : List Nat) : List Nat :=
  lrefs ++ cands.flatMap g.parents

/-- Modelled from the spec: membership in the output of the terminated
revwalk (`terminated_messages` of the issue entity, absent from the
source tree) — commits reachable from a pushed seed, bounded by the issue
id as hide-point, which per the spec keeps the initial message itself but
nothing beyond it: proper ancestors of the hide-point are excluded. -/
def revwalkContains (g : CommitGraph) (seeds : List Nat) (hide c : Nat) :
    Bool :=
  seeds.any (fun s => reaches g s c) && !(reaches g hide c && c != hide)

/-- Leaf part of `mirror_impl` from `main.rs` (flag `clone-leaves` set):
collect the candidate leaves from the remote refs, walk everything
hanging from local refs together with the parents of the candidates, drop
every walked commit from the candidates, and materialize the rest as new
local leaf references. -/
def mirror_leaves (g : CommitGraph) (issueId : Nat) (remoteArg : Option String)
    (rrefs : List RefM) (lrefs : List Nat) : List Nat :=
  let cands := mirrorCandidates remoteArg rrefs
  cands.filter
    (fun c => !(revwalkContains g (mirrorSeeds g lrefs cands) issueId c))

/-- C1: with leaf creation enabled, the commits materialized as new local
leaf refs are exactly the remote leaf candidates not contained in the
terminated revwalk seeded with the issue's local refs and the candidates'
parents; in particular a candidate that is an ancestor of a local ref, or
a proper ancestor of another candidate, is never materialized (the issue
id being a parent-less root commit). -/
theorem c1_mirror_leaf_plan (g : CommitGraph) (issueId : Nat)
    (remoteArg : Option String) (rrefs : List RefM) (lrefs : List Nat)
    (hroot : g.parents issueId = []) :
    (∀ c, c ∈ mirror_leaves g issueId remoteArg rrefs lrefs ↔
        c ∈ mirrorCandidates remoteArg rrefs
        ∧ revwalkContains g
            (mirrorSeeds g lrefs (mirrorCandidates remoteArg rrefs))
            issueId c = false)
    ∧ (∀ c, c ∈ mirrorCandidates remoteArg rrefs →
        ((∃ l ∈ lrefs, reaches g l c = true)
         ∨ (∃ c' ∈ mirrorCandidates remoteArg rrefs,
              c' ≠ c ∧ reaches g c' c = true)) →
        c ∉ mirror_leaves g issueId remoteArg rrefs lrefs) := by
  have hmem : ∀ c, c ∈ mirror_leaves g issueId remoteArg rrefs lrefs ↔
      c ∈ mirrorCandidates remoteArg rrefs
      ∧ revwalkContains g
          (mirrorSeeds g lrefs (mirrorCandidates remoteArg rrefs))
          issueId c = false := by
    intro c
    simp [mirror_leaves, List.mem_filter, Bool.not_eq_true']
  refine ⟨hmem, ?_⟩
  intro c hc hanc hmem'
  have hwalk : revwalkContains g
      (mirrorSeeds g lrefs (mirrorCandidates remoteArg rrefs))
      issueId c = false := ((hmem c).mp hmem').2
  have hseeds : (mirrorSeeds g lrefs (mirrorCandidates remoteArg rrefs)).any
      (fun s => reaches g s c) = true := by
    rcases hanc with ⟨l, hl, hr⟩ | ⟨c', hc', hne, hr⟩
    · exact List.any_eq_true.mpr
        ⟨l, List.mem_append_left _ hl, hr⟩
    · rcases (reaches_iff g c' c).mp hr with rfl | ⟨p, hp, hrp⟩
      · exact absurd rfl hne
      · exact List.any_eq_true.mpr
          ⟨p, List.mem_append_right _ (List.mem_flatMap.mpr ⟨c', hc', hp⟩), hrp⟩
  have hhide : (reaches g issueId c && c != issueId) = false := by
    by_cases hci : c = issueId
    · simp [hci]
    · have : reaches g issueId c = false := by
        rcases h : reaches g issueId c with _ | _
        · rfl
        · rcases (reaches_iff g issueId c).mp h with heq | ⟨p, hp, _⟩
          · exact absurd heq.symm hci
          · rw [hroot] at hp
            simp at hp
      simp [this]
  rw [revwalkContains, hseeds, hhide] at hwalk
  simp at hwalk

/-- Remote leaf references used by the C1 witness: two leaves of remote
`origin`, pointing at commits 1 and 2 of the chain. -/
def sampleRemoteLeaves : List RefM :=
  [⟨"refs/remotes/origin/dit/a/leaves/b", some "origin", 1⟩,
   ⟨"refs/remotes/origin/dit/a/leaves/c", some "origin", 2⟩]

/-- C1 witness: on the three-commit chain with a local ref at commit 2
and remote leaf candidates at commits 1 and 2, the planner's output is
characterised as claimed; candidate 1 (an ancestor of both the local ref
and candidate 2) is not materialized. -/
theorem c1_mirror_leaf_plan_witness :
    (∀ c, c ∈ mirror_leaves chainGraph 0 none sampleRemoteLeaves [2] ↔
        c ∈ mirrorCandidates none sampleRemoteLeaves
        ∧ revwalkContains chainGraph
            (mirrorSeeds chainGraph [2] (mirrorCandidates none sampleRemoteLeaves))
            0 c = false)
    ∧ (∀ c, c ∈ mirrorCandidates none sampleRemoteLeaves →
        ((∃ l ∈ ([2] : List Nat), reaches chainGraph l c = true)
         ∨ (∃ c' ∈ mirrorCandidates none sampleRemoteLeaves,
              c' ≠ c ∧ reaches chainGraph c' c = true)) →
        c ∉ mirror_leaves chainGraph 0 none sampleRemoteLeaves [2]) :=
  c1_mirror_leaf_plan chainGraph 0 none sampleRemoteLeaves [2] (by decide)
